import Mathlib

/-!
Verification development for the tabby-command-editor terminal command
extraction plugin.  The TypeScript sources are shallowly embedded:
strings become `List Char`, the xterm buffer becomes a partial map from
absolute row indices to row snapshots, the asynchronous cursor probes
become oracle parameters (the position the probe converged to, if any),
and the mutable per-session marker store becomes an explicit state
record threaded through the operations.  Marker objects are identified
by their marker id; the `dispose` side effect is a set of disposed ids.
-/

set_option maxHeartbeats 1000000

/-- Character lists stand in for JavaScript strings. -/
abbrev Str := List Char

/-- Coercion from Lean string literals, used for concrete test inputs. -/
def str (s : String) : Str := s.data

/-- The JavaScript whitespace class: members of `\s` and the set trimmed
by `String.prototype.trim` / `trimStart` / `trimEnd`. -/
def jsWsChars : Str :=
  [' ', '\t', '\n', '\x0b', '\x0c', '\r', ' ', ' ',
   ' ', ' ', ' ', ' ', ' ', ' ', ' ',
   ' ', ' ', ' ', ' ', ' ', ' ', ' ',
   ' ', '　', '﻿']

/-- Whether a character is JavaScript whitespace. -/
def isJsWs (c : Char) : Bool := jsWsChars.contains c

/-- JavaScript `String.prototype.trimStart`. -/
def jsTrimStart (s : Str) : Str := s.dropWhile isJsWs

/-- JavaScript `String.prototype.trimEnd`. -/
def jsTrimEnd (s : Str) : Str := s.rdropWhile isJsWs

/-- JavaScript `String.prototype.trim`. -/
def jsTrim (s : Str) : Str := (s.rdropWhile isJsWs).dropWhile isJsWs

/-- Length of the run of JavaScript whitespace at the head of a string
(what a leading greedy `\s*` consumes). -/
def wsRunLen (s : Str) : Nat := (s.takeWhile isJsWs).length

/-- JavaScript `String.prototype.substring(a, b)`: both arguments are
clamped to the string length and swapped when out of order. -/
def jsSubstring (s : Str) (a b : Nat) : Str :=
  let a' := min a s.length
  let b' := min b s.length
  (s.take (max a' b')).drop (min a' b')

/-- The number of terminal cells of a row that remain after xterm's
`trimRight`: the row text without its trailing blank (space) cells. -/
def cellTrimLen (s : Str) : Nat := (s.rdropWhile (· = ' ')).length

/-- xterm's `IBufferLine.translateToString(true, startColumn?, endColumn?)`
on a row whose cell contents are `s`: the end column is clamped to the
trimmed length, and the slice `[startColumn, endColumn)` is returned.
All call sites in the sources pass `trimRight = true`. -/
def translateToString (s : Str) (startCol : Nat) (endCol : Option Nat) : Str :=
  (s.take (min (endCol.getD s.length) (cellTrimLen s))).drop startCol

/-! ## Data model (src/unnamed/part_002, `extraction/types`) -/

/-- Cursor position: column `x` (0-indexed) and absolute row `y`
(`baseY + cursorY`). -/
structure CursorPosition where
  x : Nat
  y : Nat
deriving DecidableEq, Repr

/-- Command boundaries detected by probing or heuristics.  The source
field `end` is a Lean keyword and is rendered `endPos`. -/
structure CommandBoundaries where
  start : CursorPosition
  endPos : CursorPosition
deriving DecidableEq, Repr

/-- Confidence level of an extraction result. -/
inductive Confidence where
  | high
  | medium
  | low
deriving DecidableEq, Repr

/-- Result of command extraction (the `extraction/types` variant, with a
confidence level). -/
structure ExtractionResult where
  command : Str
  isMultiLine : Bool
  startLine : Nat
  endLine : Nat
  confidence : Confidence
deriving DecidableEq, Repr

/-- Result of command extraction as declared in
`commandExtraction.service.ts` (no confidence field). -/
structure SvcExtractionResult where
  command : Str
  isMultiLine : Bool
  startLine : Nat
  endLine : Nat
deriving DecidableEq, Repr

/-- A buffer row snapshot: cell text and the wrapped flag
(continuation of the previous row due to display width). -/
structure BufLine where
  text : Str
  isWrapped : Bool
deriving DecidableEq, Repr

/-- Read-only view of the active buffer: per-row snapshots by absolute
index (`getLine`), and the total row count (`length`). -/
structure Buffer where
  lines : Nat → Option BufLine
  length : Nat

/-- Embeds `CommandExtractionService.getLineText` /
`TerminalTrackerService` row read: `translateToString(true)` of the row,
or the empty string when the row is missing. -/
def getLineText (buf : Buffer) (y : Nat) : Str :=
  match buf.lines y with
  | none => []
  | some line => translateToString line.text 0 none

/-! ## Prompt pattern catalogue -/

/-- Prompt terminator glyphs of the first service pattern
`/^.*?[❯›➜➤⟩»$#%>]\s+/` (also the `promptChars` array of the fallback
scan and of `PromptMarkerService.looksLikePrompt`). -/
def svcPromptChars : Str := ['❯', '›', '➜', '➤', '⟩', '»', '$', '#', '%', '>']

/-- Starship/pure symbols of the second service pattern `/^.*?[λ∴⊙⟡❮❭]\s+/`. -/
def svcPromptChars2 : Str := ['λ', '∴', '⊙', '⟡', '❮', '❭']

/-- Length of the match of `^.*?[set]\s+` on `s`, if any: the lazy `.*?`
stops at the first index `i` whose character is in `set` and is followed
by at least one whitespace character, and the greedy `\s+` then consumes
the whole whitespace run. -/
def matchCharThenWs (set : Str) : Str → Option Nat
  | [] => none
  | c :: rest =>
    if set.contains c && (match rest with | d :: _ => isJsWs d | [] => false) then
      some (1 + wsRunLen rest)
    else
      (matchCharThenWs set rest).map (· + 1)

/-- Embeds `CommandExtractionService.findPromptEnd`: the length of the first
matching prompt pattern, i.e. the column where the command starts. -/
def svcFindPromptEnd (line : Str) : Option Nat :=
  match matchCharThenWs svcPromptChars line with
  | some n => some n
  | none => matchCharThenWs svcPromptChars2 line

/-- Case-insensitive prefix test against an (already lowercase) word,
modelling a `/^word/i` regex. -/
def ciStartsWith (s : Str) (w : Str) : Bool := (s.take w.length).map Char.toLower = w

/-- The zsh continuation prompt words of pattern
`/^(dquote|quote|bquote|pipe|cmdsubst|heredoc)>\s*` (with the trailing
`>`). -/
def zshContWords : List Str :=
  [str "dquote>", str "quote>", str "bquote>", str "pipe>", str "cmdsubst>", str "heredoc>"]

/-- The zsh word prefix matched case-insensitively at the head of `s`,
if any, returned by its length. -/
def zshContLen (s : Str) : Option Nat :=
  (zshContWords.find? (fun w => ciStartsWith s w)).map List.length

/-- Embeds `stripContinuationPrompt` as duplicated in
`commandExtraction.service.ts`, `CursorProbeStrategy` and
`HeuristicStrategy`: removes the first matching continuation prompt
pattern of `>\s*`, `>>\s*`, `...\s*` or the zsh words (the `>` pattern
subsumes `>>`). -/
def stripContinuationPrompt (s : Str) : Str :=
  match s with
  | '>' :: rest => rest.drop (wsRunLen rest)
  | _ =>
    if s.take 3 = str "..." then
      let r := s.drop 3
      r.drop (wsRunLen r)
    else
      match zshContLen s with
      | some n =>
        let r := s.drop n
        r.drop (wsRunLen r)
      | none => s

/-- Embeds `HeuristicStrategy.isContinuationLine`: after `trimStart`, the line
starts with `> ` (a space-class character is required after the bare
`>`), a zsh continuation word, or `...`. -/
def hIsContinuationLine (text : Str) : Bool :=
  let t := jsTrimStart text
  (match t with | '>' :: c :: _ => isJsWs c | _ => false) ||
  ciStartsWith t (str "dquote>") || ciStartsWith t (str "quote>") ||
  ciStartsWith t (str "pipe>") || ciStartsWith t (str "cmdsubst>") ||
  ciStartsWith t (str "heredoc>") ||
  decide (t.take 3 = str "...")

/-- The character class of `/^-?[rwxd-]{9,}/` (ls permission strings). -/
def rwxdChars : Str := ['r', 'w', 'x', 'd', '-']

/-- Match of `/^\d+\.\d+\.\d+/` (version triples). -/
def versionMatch (t : Str) : Bool :=
  let d1 := t.takeWhile Char.isDigit
  let r1 := t.drop d1.length
  decide (d1.length > 0) &&
  (match r1 with
   | '.' :: r2 =>
     let d2 := r2.takeWhile Char.isDigit
     let r3 := r2.drop d2.length
     decide (d2.length > 0) &&
     (match r3 with
      | '.' :: r4 => decide ((r4.takeWhile Char.isDigit).length > 0)
      | _ => false)
   | _ => false)

/-- Match of `/^[A-Z][a-z]+:?\s/` (output labels such as `Error:`). -/
def labelMatch (t : Str) : Bool :=
  match t with
  | c :: rest =>
    let run := rest.takeWhile (fun d => decide ('a' ≤ d ∧ d ≤ 'z'))
    decide ('A' ≤ c ∧ c ≤ 'Z') && decide (run.length > 0) &&
    (match rest.drop run.length with
     | ':' :: d :: _ => isJsWs d
     | d :: _ => isJsWs d
     | [] => false)
  | [] => false

/-- Embeds `HeuristicStrategy.looksLikeOutput`: negative heuristic for rows that
are command output rather than a prompt line. -/
def looksLikeOutput (t : Str) : Bool :=
  decide (t.take 6 = str "total ") ||
  decide ((t.takeWhile (rwxdChars.contains ·)).length ≥ 9) ||
  versionMatch t ||
  labelMatch t

/-- Main prompt glyphs of `HeuristicStrategy.findPromptEnd` (the bare `>`
is excluded: it marks continuations). -/
def hPromptChars : Str := ['❯', '›', '➜', '➤', '⟩', '»', '$', '#', '%']

/-- The descending search of `HeuristicStrategy.findPromptEnd`: the
largest index `i` below the search limit with a main prompt glyph at `i`
followed by a literal space. -/
def hPromptSearch (ln : Str) : Nat → Option Nat
  | 0 => none
  | i + 1 =>
    if (match ln[i]? with | some c => hPromptChars.contains c | none => false) &&
        decide (ln[i + 1]? = some ' ') then
      some i
    else
      hPromptSearch ln i

/-- Embeds `HeuristicStrategy.findPromptEnd`: `null` on continuation lines; the
position after `glyph + space` searched within the first 100 columns;
otherwise column 0 for a plain line with fewer than 4 leading spaces
that does not look like output. -/
def hFindPromptEnd (line : Str) : Option Nat :=
  if hIsContinuationLine line then none
  else
    match hPromptSearch line (min 100 line.length) with
    | some i => some (i + 2)
    | none =>
      if jsTrim line ≠ [] then
        let trimmed := jsTrimStart line
        let leadingSpaces := line.length - trimmed.length
        if leadingSpaces < 4 ∧ looksLikeOutput trimmed = false then some 0 else none
      else none

/-! ## Region assembly

`CursorProbeStrategy.extractFromBoundaries` (src/unnamed/part_003),
`HeuristicStrategy.extractRegion` (src/unnamed/part_004) and
`PowerExtractionService.extractFromPrompt` (src/unnamed/part_005) share
the same row loop, embedded once. -/

/-- One iteration of the strategy row loop: the accumulator carries the
concatenated segments and the `isMultiLine` flag. -/
def assembleStep (buf : Buffer) (startY startX endY endX : Nat)
    (acc : Str × Bool) (y : Nat) : Str × Bool :=
  match buf.lines y with
  | none => acc
  | some line =>
    let sX := if y = startY then startX else 0
    let eX := if y = endY then some endX else none
    let text := translateToString line.text sX eX
    if y > startY then
      if line.isWrapped then (acc.1 ++ text, acc.2)
      else (acc.1 ++ '\n' :: stripContinuationPrompt text, true)
    else (acc.1 ++ text, acc.2)

/-- The strategy row loop over rows `startY .. endY`. -/
def assembleRegion (buf : Buffer) (startY startX endY endX : Nat) : Str × Bool :=
  (List.range' startY (endY + 1 - startY)).foldl
    (assembleStep buf startY startX endY endX) ([], false)

/-- Embeds `CursorProbeStrategy.extractFromBoundaries`. -/
def cpExtractFromBoundaries (buf : Buffer) (b : CommandBoundaries) : ExtractionResult :=
  let a := assembleRegion buf b.start.y b.start.x b.endPos.y b.endPos.x
  { command := jsTrim a.1, isMultiLine := a.2,
    startLine := b.start.y, endLine := b.endPos.y, confidence := .high }

/-- Embeds `CursorProbeStrategy.isValidBoundaries`. -/
def cpIsValidBoundaries (b : CommandBoundaries) : Bool :=
  if b.start.y > b.endPos.y then false
  else if b.start.y = b.endPos.y ∧ b.start.x ≥ b.endPos.x then false
  else true

/-- Embeds `CursorProbeStrategy.extract`.  The asynchronous `probeStart`
(Home/Ctrl+A negotiation) is an oracle argument: the position the probe
converged to, or `none` when every method failed; `restoreCursor` only
sends bytes and is invisible in the buffer model. -/
def cpExtract (buf : Buffer) (cursorPosition : CursorPosition)
    (probeStart : Option CursorPosition) : Option ExtractionResult :=
  if cursorPosition.x = 0 then none
  else
    match probeStart with
    | none => none
    | some startPos =>
      let b : CommandBoundaries := ⟨startPos, cursorPosition⟩
      if cpIsValidBoundaries b then some (cpExtractFromBoundaries buf b) else none

/-- Embeds `HeuristicStrategy.extractRegion`: same loop, `null` when the
trimmed command is empty, medium confidence. -/
def hExtractRegion (buf : Buffer) (startY startX endY endX : Nat) : Option ExtractionResult :=
  let a := assembleRegion buf startY startX endY endX
  let command := jsTrim a.1
  if command = [] then none
  else some { command := command, isMultiLine := a.2,
              startLine := startY, endLine := endY, confidence := .medium }

/-! ## Prompt marker tracking (src/unnamed/part_002, `PromptMarkerService`) -/

/-- An xterm marker handle: a fresh id and the (absolute) row it tracks.
Disposal is recorded in the session state by id. -/
structure Marker where
  id : Nat
  line : Nat
deriving DecidableEq, Repr

/-- A tracked prompt region (`extraction/types`). -/
structure PromptRegion where
  marker : Marker
  commandStartX : Nat
  timestamp : Nat
deriving DecidableEq, Repr

/-- Embeds `PromptMarkerService.MAX_PROMPTS`. -/
def MAX_PROMPTS : Nat := 100

/-- Per-session marker state: the `prompts` array, the `currentPrompt`
reference, the set of disposed marker ids, and the id supply for
`registerMarker`.  Region objects are identified by their marker id;
`currentPrompt` stores the referenced region (its marker fields are
immutable in the source, so the id and line are always accurate). -/
structure MarkerState where
  prompts : List PromptRegion
  currentPrompt : Option PromptRegion
  disposed : List Nat
  nextId : Nat
deriving DecidableEq, Repr

/-- Whether a stored region is a live duplicate of row `row`
(the `find?` predicate of `PromptMarkerService.addPrompt`). -/
def regionDup (st : MarkerState) (row : Nat) (p : PromptRegion) : Bool :=
  !(st.disposed.contains p.marker.id) && decide (p.marker.line = row)

/-- In-place mutation of the first array entry satisfying `q` (the JS
`find`-then-assign idiom). -/
def updateFirst {α : Type} (q : α → Bool) (f : α → α) : List α → List α
  | [] => []
  | a :: l => if q a then f a :: l else a :: updateFirst q f l

/-- The `while (prompts.length > MAX_PROMPTS) shift-and-dispose` loop of
`addPrompt`; the fuel is the array length, which bounds the number of
iterations. -/
def evictOldest : Nat → List PromptRegion → List Nat → List PromptRegion × List Nat
  | 0, prompts, disposed => (prompts, disposed)
  | fuel + 1, prompts, disposed =>
    if prompts.length > MAX_PROMPTS then
      match prompts with
      | [] => ([], disposed)
      | old :: rest =>
        evictOldest fuel rest
          (if disposed.contains old.marker.id then disposed else old.marker.id :: disposed)
    else (prompts, disposed)

/-- Embeds `PromptMarkerService.addPrompt`. -/
def addPrompt (st : MarkerState) (region : PromptRegion) : MarkerState :=
  match st.prompts.find? (regionDup st region.marker.line) with
  | some _ =>
    { st with
      prompts := updateFirst (regionDup st region.marker.line)
        (fun p => { p with commandStartX := region.commandStartX,
                           timestamp := region.timestamp })
        st.prompts,
      disposed := region.marker.id :: st.disposed }
  | none =>
    let pushed := st.prompts ++ [region]
    let ev := evictOldest pushed.length pushed st.disposed
    { st with prompts := ev.1, disposed := ev.2, currentPrompt := some region }

/-- Embeds `PromptMarkerService.getCurrentPrompt`. -/
def getCurrentPrompt (st : MarkerState) : Option PromptRegion :=
  match st.currentPrompt with
  | some p => if st.disposed.contains p.marker.id then none else some p
  | none => none

/-- Embeds `PromptMarkerService.markPromptAt`: `registerMarker(0)` binds a fresh
marker at the given row; `markerOk` is the oracle for whether
registration succeeded. -/
def markPromptAt (st : MarkerState) (markerOk : Bool)
    (row commandStartX now : Nat) : MarkerState :=
  if markerOk then
    addPrompt { st with nextId := st.nextId + 1 } ⟨⟨st.nextId, row⟩, commandStartX, now⟩
  else st

/-- Embeds `PromptMarkerService.cleanupDisposedMarkers`. -/
def cleanupDisposedMarkers (st : MarkerState) : MarkerState :=
  let valid := st.prompts.filter (fun p => !(st.disposed.contains p.marker.id))
  let newCurrent :=
    match st.currentPrompt with
    | some c => if st.disposed.contains c.marker.id then valid.getLast? else some c
    | none => none
  { st with prompts := valid, currentPrompt := newCurrent }

/-- External disposal of a marker by the host display (scrollback
eviction): the persistent primitive's own `dispose`. -/
def disposeMarker (st : MarkerState) (id : Nat) : MarkerState :=
  { st with disposed := if st.disposed.contains id then st.disposed else id :: st.disposed }

/-! ## Heuristic strategy (src/unnamed/part_004) -/

/-- Embeds `HeuristicStrategy.MAX_SCAN_LINES` (also
`CommandExtractionService.MAX_SCAN_LINES`). -/
def MAX_SCAN_LINES : Nat := 50

/-- Embeds `HeuristicStrategy.extractFromPromptMarker`. -/
def hExtractFromPromptMarker (buf : Buffer) (p : PromptRegion)
    (cursorPos : CursorPosition) : Option ExtractionResult :=
  hExtractRegion buf p.marker.line p.commandStartX cursorPos.y cursorPos.x

/-- The backward scan loop of `HeuristicStrategy.extractByScan`:
returns the `(startY, startX)` pair the loop settles on; `startY`/`startX`
are only assigned at the two `break` sites, so leaving the loop in any
other way keeps the initial `(cursorY, 0)`. -/
def hScanLoop (buf : Buffer) (cursorY : Nat) : Nat → Nat → Nat × Nat
  | 0, _ => (cursorY, 0)
  | fuel + 1, y =>
    match buf.lines y with
    | none => (cursorY, 0)
    | some line =>
      if line.isWrapped && decide (y > 0) then hScanLoop buf cursorY fuel (y - 1)
      else
        let text := translateToString line.text 0 none
        match hFindPromptEnd text with
        | some pe => (y, pe)
        | none =>
          if hIsContinuationLine text then hScanLoop buf cursorY fuel (y - 1)
          else if y < cursorY then (y + 1, 0)
          else hScanLoop buf cursorY fuel (y - 1)

/-- Embeds `HeuristicStrategy.extractByScan`: the loop visits rows `cursorY`
down to `max(0, cursorY - MAX_SCAN_LINES)`, i.e. `min 50 cursorY + 1`
rows. -/
def hExtractByScan (buf : Buffer) (cursorPos : CursorPosition) : Option ExtractionResult :=
  let s := hScanLoop buf cursorPos.y (min MAX_SCAN_LINES cursorPos.y + 1) cursorPos.y
  hExtractRegion buf s.1 s.2 cursorPos.y cursorPos.x

/-- The fall-through tail of `HeuristicStrategy.extract` (after the
column-0 guard): use the live marker when it lies at or above the
cursor, otherwise scan backward. -/
def hExtractProceed (dead : Nat → Bool) (buf : Buffer) (cursorPos : CursorPosition)
    (currentPrompt : Option PromptRegion) : Option ExtractionResult :=
  match currentPrompt with
  | some p =>
    if !dead p.marker.id && decide (p.marker.line ≤ cursorPos.y) then
      hExtractFromPromptMarker buf p cursorPos
    else hExtractByScan buf cursorPos
  | none => hExtractByScan buf cursorPos

/-- Embeds `HeuristicStrategy.extract`.  `dead` reports marker disposal (fed
from the session state by the tracker). -/
def hExtract (dead : Nat → Bool) (buf : Buffer) (cursorPos : CursorPosition)
    (currentPrompt : Option PromptRegion) : Option ExtractionResult :=
  if cursorPos.x = 0 then
    match buf.lines cursorPos.y with
    | none => none
    | some line =>
      if jsTrim (translateToString line.text 0 none) = [] then none
      else hExtractProceed dead buf cursorPos currentPrompt
  else hExtractProceed dead buf cursorPos currentPrompt

/-! ## Service orchestrator (src/src/services/commandExtraction.service.ts) -/

/-- The last-resort loop of `CommandExtractionService.fallbackLineScan`:
descending over columns, a prompt glyph followed by a space (command
start two columns later) or at end of line (one column later) is
accepted only when the command start lies strictly before the cursor
column. -/
def svcLastResortScan (lineText : Str) (cursorPos : CursorPosition) : Nat → Option CommandBoundaries
  | 0 => none
  | i + 1 =>
    if (match lineText[i]? with | some c => svcPromptChars.contains c | none => false) then
      match lineText[i + 1]? with
      | some c =>
        if c = ' ' then
          if i + 2 < cursorPos.x then
            some ⟨⟨i + 2, cursorPos.y⟩, ⟨(jsTrimEnd lineText).length, cursorPos.y⟩⟩
          else svcLastResortScan lineText cursorPos i
        else svcLastResortScan lineText cursorPos i
      | none =>
        if i + 1 < cursorPos.x then
          some ⟨⟨i + 1, cursorPos.y⟩, ⟨(jsTrimEnd lineText).length, cursorPos.y⟩⟩
        else svcLastResortScan lineText cursorPos i
    else svcLastResortScan lineText cursorPos i

/-- Embeds `CommandExtractionService.fallbackLineScan`. -/
def svcFallbackLineScan (buf : Buffer) (cursorPos : CursorPosition) : Option CommandBoundaries :=
  let lineText := getLineText buf cursorPos.y
  match svcFindPromptEnd lineText with
  | some promptEnd =>
    if promptEnd < cursorPos.x then
      some ⟨⟨promptEnd, cursorPos.y⟩, ⟨(jsTrimEnd lineText).length, cursorPos.y⟩⟩
    else svcLastResortScan lineText cursorPos lineText.length
  | none => svcLastResortScan lineText cursorPos lineText.length

/-- Oracle for the two readline probes of
`CommandExtractionService.probeCommandBoundaries`: where the Ctrl+A and
Ctrl+E probes converged (or `none` on failure), and the cursor position
read when the Ctrl+E probe fails. -/
structure SvcProbeOracle where
  ctrlA : Option CursorPosition
  ctrlE : Option CursorPosition
  cursorNow : CursorPosition
deriving DecidableEq, Repr

/-- Embeds `CommandExtractionService.probeCommandBoundaries`. -/
def svcProbeCommandBoundaries (oracle : SvcProbeOracle) (buf : Buffer)
    (originalPos : CursorPosition) : Option CommandBoundaries :=
  match oracle.ctrlA with
  | none => svcFallbackLineScan buf originalPos
  | some startPos => some ⟨startPos, oracle.ctrlE.getD oracle.cursorNow⟩

/-- Whether the right-trimmed text of row `y` ends with the shell line
continuation marker (trailing backslash). -/
def hasContMarker (buf : Buffer) (y : Nat) : Bool :=
  decide ((jsTrimEnd (getLineText buf y)).getLast? = some '\\')

/-- The backward loop of `CommandExtractionService.expandForMultiLine`:
from `startY - 1` down, while the current row ends with `\` the start is
re-derived on that row (prompt end if a pattern matches, else column 0)
and the walk continues; the first row without the marker stops it.  The
fuel is the iteration count `min MAX_SCAN_LINES startY` of the source
loop bound `y >= Math.max(0, startY - MAX_SCAN_LINES)`. -/
def expandLoop (buf : Buffer) : Nat → Nat → CursorPosition → CursorPosition
  | 0, _, acc => acc
  | fuel + 1, y, acc =>
    if hasContMarker buf y then
      expandLoop buf fuel (y - 1) ⟨(svcFindPromptEnd (getLineText buf y)).getD 0, y⟩
    else acc

/-- Embeds `CommandExtractionService.expandForMultiLine`. -/
def expandForMultiLine (buf : Buffer) (b : CommandBoundaries) : CommandBoundaries :=
  ⟨expandLoop buf (min MAX_SCAN_LINES b.start.y) (b.start.y - 1) b.start, b.endPos⟩

/-- The join loop of `CommandExtractionService.extractFromBoundaries`:
the first collected line verbatim, every later one preceded by a single
newline (both branches of the source conditional append `'\n' + line`). -/
def joinNl : List Str → Str
  | [] => []
  | [l] => l
  | l :: ls => l ++ '\n' :: joinNl ls

/-- Per-row collection of `CommandExtractionService.extractFromBoundaries`:
the single-row slice is pushed unconditionally; other rows are pushed
only when non-empty after trimming (continuation prompts stripped on the
middle and last rows). -/
def svcCollectLine (buf : Buffer) (b : CommandBoundaries) (y : Nat) : Option Str :=
  let lineText := getLineText buf y
  if y = b.start.y ∧ y = b.endPos.y then
    some (jsSubstring lineText b.start.x b.endPos.x)
  else if y = b.start.y then
    let content := jsTrimEnd (lineText.drop b.start.x)
    if content = [] then none else some content
  else if y = b.endPos.y then
    let stripped := stripContinuationPrompt lineText
    let offset := lineText.length - stripped.length
    let adjustedEndX := b.endPos.x - offset
    let content := jsTrimEnd (stripped.take adjustedEndX)
    if content = [] then none else some content
  else
    let content := jsTrimEnd (stripContinuationPrompt lineText)
    if content = [] then none else some content

/-- Embeds `CommandExtractionService.extractFromBoundaries`: collects the rows,
joins them with newlines, trims, and reports multi-line whenever more
than one row was collected. -/
def svcExtractFromBoundaries (buf : Buffer) (b : CommandBoundaries) : Option SvcExtractionResult :=
  let commandLines := (List.range' b.start.y (b.endPos.y + 1 - b.start.y)).filterMap (svcCollectLine buf b)
  let command := jsTrim (joinNl commandLines)
  if command = [] then none
  else some { command := command, isMultiLine := decide (commandLines.length > 1),
              startLine := b.start.y, endLine := b.endPos.y }

/-- Embeds `CommandExtractionService.extractCommand`: full-screen guard, probe,
backward expansion, boundary validation, extraction.  `alt` is
`frontend.isAlternateScreenActive()`. -/
def svcExtractCommand (alt : Bool) (buf : Buffer) (originalPos : CursorPosition)
    (oracle : SvcProbeOracle) : Option SvcExtractionResult :=
  if alt then none
  else
    match svcProbeCommandBoundaries oracle buf originalPos with
    | none => none
    | some b =>
      let eb := expandForMultiLine buf b
      if eb.start.y > eb.endPos.y ∨ (eb.start.y = eb.endPos.y ∧ eb.start.x ≥ eb.endPos.x) then
        none
      else svcExtractFromBoundaries buf eb

/-! ## Tracker orchestrator (src/unnamed/part_001, `TerminalTrackerService`) -/

/-- Result and post-state of one `TerminalTrackerService.extractCommand`
call. -/
structure TrackerOutcome where
  result : Option ExtractionResult
  state : MarkerState
deriving Repr

/-- Embeds `TerminalTrackerService.extractCommand`: skip on alternate screen,
try the cursor probe (on success mark the start row as a prompt when the
result begins on the cursor row), otherwise fall back to the heuristic
strategy.  `probeStart` is the probe oracle, `markerOk` the
`registerMarker` oracle, `now` the clock reading. -/
def trackerExtractCommand (st : MarkerState) (alt : Bool) (buf : Buffer)
    (cursorPosition : CursorPosition) (probeStart : Option CursorPosition)
    (markerOk : Bool) (now : Nat) : TrackerOutcome :=
  if alt then ⟨none, st⟩
  else
    let currentPrompt := getCurrentPrompt st
    match cpExtract buf cursorPosition probeStart with
    | some result =>
      let st' :=
        if result.startLine = cursorPosition.y then
          markPromptAt st markerOk cursorPosition.y
            ((currentPrompt.map (·.commandStartX)).getD 0) now
        else st
      ⟨some result, st'⟩
    | none => ⟨hExtract (st.disposed.contains ·) buf cursorPosition currentPrompt, st⟩

/-! ## Spec-side forward scan (for the refinement comparison of C6) -/

/-- Modelled from the spec: the forward end scan of §4.3, which the
heuristic strategy sources do not contain.  "Forward scan from the
cursor row finds the end: subsequent rows belong to the command while
non-empty and not themselves a fresh prompt; blank rows are skipped but
do not terminate the scan."  `lastIn` is the last row found to belong to
the command (initially the cursor row); a fresh prompt is a row the
heuristic catalogue classifies as one. -/
def specForwardScanAux (buf : Buffer) : Nat → Nat → Nat → Nat
  | 0, _, lastIn => lastIn
  | fuel + 1, y, lastIn =>
    let t := getLineText buf y
    if jsTrim t = [] then specForwardScanAux buf fuel (y + 1) lastIn
    else if (hFindPromptEnd t).isSome then lastIn
    else specForwardScanAux buf fuel (y + 1) y

/-- Modelled from the spec: the end row the §4.3 forward scan would
produce, scanning the rows below the cursor row to the end of the
buffer. -/
def specForwardScanEnd (buf : Buffer) (cursorY : Nat) : Nat :=
  specForwardScanAux buf (buf.length - (cursorY + 1)) (cursorY + 1) cursorY

/-! ## Declarative characterisations used in the theorems -/

/-- Lexicographic order on cursor positions ((row, column), the boundary
validity order). -/
def lexLt (p q : CursorPosition) : Prop := p.y < q.y ∨ (p.y = q.y ∧ p.x < q.x)

instance (p q : CursorPosition) : Decidable (lexLt p q) := by
  unfold lexLt; infer_instance

/-- The segment a row after the first contributes to an assembled
region: wrapped rows join with no separator, other rows with one newline
after continuation-prompt stripping; a missing row contributes
nothing. -/
def segPiece (buf : Buffer) (endY endX : Nat) (y : Nat) : Str :=
  match buf.lines y with
  | none => []
  | some line =>
    let text := translateToString line.text 0 (if y = endY then some endX else none)
    if line.isWrapped then text else '\n' :: stripContinuationPrompt text

/-- Whether row `y` exists and is not flagged wrapped. -/
def rowNonWrapped (buf : Buffer) (y : Nat) : Bool :=
  match buf.lines y with
  | none => false
  | some line => !line.isWrapped

/-- The first row's contribution to an assembled region. -/
def firstRowText (buf : Buffer) (startY startX endY endX : Nat) : Str :=
  match buf.lines startY with
  | none => []
  | some line => translateToString line.text startX (if startY = endY then some endX else none)

/-- Length of the run of consecutive continuation rows walked by
`expandLoop` starting at row `y` and going down, within `fuel` rows. -/
def contRunAux (buf : Buffer) : Nat → Nat → Nat
  | 0, _ => 0
  | fuel + 1, y => if hasContMarker buf y then contRunAux buf fuel (y - 1) + 1 else 0

/-- The number of continuation rows `expandForMultiLine` walks back over
from a boundary starting at row `startY`. -/
def contRun (buf : Buffer) (startY : Nat) : Nat :=
  contRunAux buf (min MAX_SCAN_LINES startY) (startY - 1)

/-- The most-recent-pointer invariant: when `currentPrompt` references a
region, that region's marker id is an id of the prompt set, or the
marker has been disposed (in which case `getCurrentPrompt` hides it). -/
def currentInSet (st : MarkerState) : Prop :=
  ∀ c, st.currentPrompt = some c →
    c.marker.id ∈ st.prompts.map (·.marker.id) ∨ st.disposed.contains c.marker.id = true

/-! ## Concrete fixtures for counterexamples and witnesses -/

/-- The empty buffer. -/
def emptyBuf : Buffer := ⟨fun _ => none, 0⟩

/-- A buffer built from a row list. -/
def mkBuf (rows : List BufLine) : Buffer := ⟨fun y => rows[y]?, rows.length⟩

/-- A fresh per-session marker state. -/
def emptyMarkerState : MarkerState := ⟨[], none, [], 0⟩

/-- A prompt row followed by a row of command output. -/
def exBufPlain : Buffer := mkBuf [⟨str "$ echo hi", false⟩, ⟨str "total 42", false⟩]

/-- A prompt row whose input wraps onto a second display row. -/
def exBufWrapped : Buffer := mkBuf [⟨str "$ echo hi", false⟩, ⟨str "X", true⟩]

/-- Two rows the display wrapped (the second is not a real newline). -/
def exBufWrapJoin : Buffer := mkBuf [⟨str "abc", false⟩, ⟨str "def", true⟩]

/-- A backslash-continued command across two rows. -/
def exBufCont : Buffer := mkBuf [⟨str "$ echo \\", false⟩, ⟨str "> world", false⟩]

/-- Marker fixture: a prompt marked at row 3. -/
def exRegionA : PromptRegion := ⟨⟨0, 3⟩, 4, 1⟩

/-- Marker fixture: a prompt marked at row 5, later. -/
def exRegionB : PromptRegion := ⟨⟨1, 5⟩, 7, 2⟩

/-- Marker fixture: row 3 marked again, latest of all. -/
def exRegionC : PromptRegion := ⟨⟨2, 3⟩, 9, 3⟩

/-- The state after inserting the three fixtures in order. -/
def exMarkerSt : MarkerState :=
  addPrompt (addPrompt (addPrompt emptyMarkerState exRegionA) exRegionB) exRegionC

/-! ## Helper lemmas -/

/-- JavaScript `trim` is idempotent. -/
theorem jsTrim_idem (s : Str) : jsTrim (jsTrim s) = jsTrim s := by
  unfold jsTrim
  have h1 : ((s.rdropWhile isJsWs).dropWhile isJsWs).rdropWhile isJsWs
      = (s.rdropWhile isJsWs).dropWhile isJsWs := by
    rw [List.rdropWhile_eq_self_iff]
    intro hne
    obtain ⟨v, hv⟩ := List.dropWhile_suffix (l := s.rdropWhile isJsWs) isJsWs
    have hu_ne : s.rdropWhile isJsWs ≠ [] := by
      intro h0
      apply hne
      rw [h0]
      rfl
    have e1 := List.getLast?_eq_getLast ((s.rdropWhile isJsWs).dropWhile isJsWs) hne
    have e2 := List.getLast?_eq_getLast (s.rdropWhile isJsWs) hu_ne
    have e3 : (s.rdropWhile isJsWs).getLast? = ((s.rdropWhile isJsWs).dropWhile isJsWs).getLast? := by
      conv_lhs => rw [← hv]
      rw [List.getLast?_append, e1]
      rfl
    rw [e1, e2] at e3
    have e4 := Option.some.inj e3
    rw [← e4]
    exact List.rdropWhile_last_not isJsWs s hu_ne
  rw [h1, List.dropWhile_idempotent]

/-- Lemma: `hExtractRegion` only succeeds with an already-trimmed command and
reports exactly the requested rows with medium confidence. -/
theorem hExtractRegion_some (buf : Buffer) (startY startX endY endX : Nat)
    (r : ExtractionResult) (h : hExtractRegion buf startY startX endY endX = some r) :
    jsTrim r.command = r.command ∧ r.startLine = startY ∧ r.endLine = endY ∧
    r.confidence = .medium := by
  unfold hExtractRegion at h
  dsimp only at h
  split at h
  · exact Option.noConfusion h
  · have hr := Option.some.inj h
    subst hr
    exact ⟨jsTrim_idem _, rfl, rfl, rfl⟩

/-- The backward scan never settles on a start row below the cursor
row. -/
theorem hScanLoop_le (buf : Buffer) (cursorY : Nat) :
    ∀ fuel y, y ≤ cursorY → (hScanLoop buf cursorY fuel y).1 ≤ cursorY := by
  intro fuel
  induction fuel with
  | zero => intro y _; exact Nat.le_refl _
  | succ fuel ih =>
    intro y hy
    unfold hScanLoop
    cases hl : buf.lines y with
    | none => exact Nat.le_refl _
    | some line =>
      simp only []
      by_cases hw : (line.isWrapped && decide (y > 0)) = true
      · simp only [hw, if_true]
        exact ih (y - 1) (Nat.le_trans (Nat.sub_le _ _) hy)
      · simp only [Bool.not_eq_true] at hw
        simp only [hw, Bool.false_eq_true, if_false]
        cases hp : hFindPromptEnd (translateToString line.text 0 none) with
        | some pe => exact hy
        | none =>
          by_cases hcont : hIsContinuationLine (translateToString line.text 0 none) = true
          · simp only [hcont, if_true]
            exact ih (y - 1) (Nat.le_trans (Nat.sub_le _ _) hy)
          · simp only [Bool.not_eq_true] at hcont
            simp only [hcont, Bool.false_eq_true, if_false]
            by_cases hlt : y < cursorY
            · simp only [hlt, if_true]
              exact hlt
            · simp only [hlt, if_false]
              exact ih (y - 1) (Nat.le_trans (Nat.sub_le _ _) hy)

/-- Lemma: `isValidBoundaries` decides exactly the strict lexicographic
order. -/
theorem cpIsValidBoundaries_iff (b : CommandBoundaries) :
    cpIsValidBoundaries b = true ↔ lexLt b.start b.endPos := by
  unfold cpIsValidBoundaries lexLt
  constructor
  · intro h
    by_cases h1 : b.start.y > b.endPos.y
    · rw [if_pos h1] at h
      exact Bool.noConfusion h
    · rw [if_neg h1] at h
      by_cases h2 : b.start.y = b.endPos.y ∧ b.start.x ≥ b.endPos.x
      · rw [if_pos h2] at h
        exact Bool.noConfusion h
      · push_neg at h1 h2
        rcases Nat.lt_or_ge b.start.y b.endPos.y with hlt | hge
        · exact Or.inl hlt
        · have hEq : b.start.y = b.endPos.y := Nat.le_antisymm h1 hge
          exact Or.inr ⟨hEq, h2 hEq⟩
  · intro h
    have h1 : ¬b.start.y > b.endPos.y := by rcases h with h | ⟨hy, _⟩ <;> omega
    have h2 : ¬(b.start.y = b.endPos.y ∧ b.start.x ≥ b.endPos.x) := by
      rcases h with h | ⟨hy, hx⟩
      · intro ⟨he, _⟩; omega
      · intro ⟨_, hge⟩; omega
    rw [if_neg h1, if_neg h2]

/-- The strategy row loop on rows strictly after the first: fold =
concatenation of the per-row segments, and the flag becomes true exactly
when some existing non-wrapped row occurs. -/
theorem assembleRegion_foldl_after (buf : Buffer) (startY startX endY endX : Nat) :
    ∀ (ys : List Nat), (∀ y ∈ ys, startY < y) → ∀ (acc : Str × Bool),
    ys.foldl (assembleStep buf startY startX endY endX) acc
      = (acc.1 ++ (ys.map (segPiece buf endY endX)).flatten,
         acc.2 || ys.any (rowNonWrapped buf)) := by
  intro ys
  induction ys with
  | nil => intro _ acc; simp
  | cons y ys ih =>
    intro hys acc
    have hy : startY < y := hys y (List.mem_cons_self y ys)
    have hys' : ∀ z ∈ ys, startY < z := fun z hz => hys z (List.mem_cons_of_mem y hz)
    simp only [List.foldl_cons, List.map_cons, List.flatten, List.any_cons]
    rw [ih hys' (assembleStep buf startY startX endY endX acc y)]
    unfold assembleStep segPiece rowNonWrapped
    cases hl : buf.lines y with
    | none => simp
    | some line =>
      have hne : ¬ y = startY := by omega
      simp only [hne, if_false, hy, if_true]
      cases hw : line.isWrapped with
      | false => simp [List.append_assoc]
      | true => simp [List.append_assoc]

/-- Lemma: `contRunAux` is bounded by its fuel. -/
theorem contRunAux_le (buf : Buffer) : ∀ fuel y, contRunAux buf fuel y ≤ fuel := by
  intro fuel
  induction fuel with
  | zero => intro y; exact Nat.le_refl _
  | succ fuel ih =>
    intro y
    unfold contRunAux
    by_cases hm : hasContMarker buf y = true
    · simp only [hm, if_true]
      exact Nat.succ_le_succ (ih (y - 1))
    · simp only [Bool.not_eq_true] at hm
      simp only [hm, Bool.false_eq_true, if_false]
      exact Nat.zero_le _

/-- Every row inside the counted run carries the continuation marker. -/
theorem contRunAux_marker (buf : Buffer) :
    ∀ fuel y j, j < contRunAux buf fuel y → hasContMarker buf (y - j) = true := by
  intro fuel
  induction fuel with
  | zero => intro y j hj; exact absurd hj (by simp [contRunAux])
  | succ fuel ih =>
    intro y j hj
    unfold contRunAux at hj
    by_cases hm : hasContMarker buf y = true
    · simp only [hm, if_true] at hj
      cases j with
      | zero => simpa using hm
      | succ j =>
        have hj' : j < contRunAux buf fuel (y - 1) := Nat.lt_of_succ_lt_succ hj
        have := ih (y - 1) j hj'
        have he : y - 1 - j = y - (j + 1) := by omega
        rwa [he] at this
    · simp only [Bool.not_eq_true] at hm
      simp only [hm, Bool.false_eq_true, if_false] at hj
      exact absurd hj (Nat.not_lt_zero _)

/-- When the run stops before exhausting the fuel, the next row lacks
the continuation marker. -/
theorem contRunAux_stop (buf : Buffer) :
    ∀ fuel y, contRunAux buf fuel y < fuel →
      hasContMarker buf (y - contRunAux buf fuel y) = false := by
  intro fuel
  induction fuel with
  | zero => intro y h; exact absurd h (Nat.not_lt_zero _)
  | succ fuel ih =>
    intro y h
    unfold contRunAux at h ⊢
    by_cases hm : hasContMarker buf y = true
    · simp only [hm, if_true] at h ⊢
      have h' : contRunAux buf fuel (y - 1) < fuel := Nat.lt_of_succ_lt_succ h
      have := ih (y - 1) h'
      have he : y - 1 - contRunAux buf fuel (y - 1)
          = y - (contRunAux buf fuel (y - 1) + 1) := by omega
      rwa [he] at this
    · simp only [Bool.not_eq_true] at hm
      simp only [hm, Bool.false_eq_true, if_false]
      simpa using hm

/-- The expansion loop in terms of the continuation-run length: an empty
run leaves the start untouched; otherwise the start lands on the topmost
continuation row with its catalogue-derived column. -/
theorem expandLoop_eq (buf : Buffer) :
    ∀ fuel y acc, expandLoop buf fuel y acc
      = (match contRunAux buf fuel y with
         | 0 => acc
         | k + 1 =>
           ⟨(svcFindPromptEnd (getLineText buf (y - k))).getD 0, y - k⟩) := by
  intro fuel
  induction fuel with
  | zero => intro y acc; rfl
  | succ fuel ih =>
    intro y acc
    unfold expandLoop contRunAux
    by_cases hm : hasContMarker buf y = true
    · simp only [hm, if_true]
      rw [ih (y - 1) ⟨(svcFindPromptEnd (getLineText buf y)).getD 0, y⟩]
      cases hc : contRunAux buf fuel (y - 1) with
      | zero => simp
      | succ k =>
        have he : y - 1 - k = y - (k + 1) := by omega
        simp [he]
    · simp only [Bool.not_eq_true] at hm
      simp only [hm, Bool.false_eq_true, if_false]

/-- The boundary validation of the orchestrators accepts exactly the
strict lexicographic order. -/
theorem svcValid_iff (b : CommandBoundaries) :
    ¬(b.start.y > b.endPos.y ∨ (b.start.y = b.endPos.y ∧ b.start.x ≥ b.endPos.x))
      ↔ lexLt b.start b.endPos := by
  unfold lexLt
  omega

/-- Anatomy of a successful cursor-probe extraction. -/
theorem cpExtract_some (buf : Buffer) (cursorPosition : CursorPosition)
    (probeStart : Option CursorPosition) (r : ExtractionResult)
    (h : cpExtract buf cursorPosition probeStart = some r) :
    ∃ s, probeStart = some s ∧ lexLt s cursorPosition ∧
      r = cpExtractFromBoundaries buf ⟨s, cursorPosition⟩ ∧ cursorPosition.x ≠ 0 := by
  unfold cpExtract at h
  by_cases hx : cursorPosition.x = 0
  · rw [if_pos hx] at h
    exact Option.noConfusion h
  · rw [if_neg hx] at h
    cases hp : probeStart with
    | none => rw [hp] at h; exact Option.noConfusion h
    | some s =>
      rw [hp] at h
      dsimp only at h
      by_cases hv : cpIsValidBoundaries ⟨s, cursorPosition⟩ = true
      · rw [if_pos hv] at h
        exact ⟨s, rfl, (cpIsValidBoundaries_iff _).mp hv,
          (Option.some.inj h).symm, hx⟩
      · rw [if_neg hv] at h
        exact Option.noConfusion h

/-- A successful backward-scan extraction starts at or above the cursor
row and ends on it. -/
theorem hExtractByScan_some (buf : Buffer) (cursorPos : CursorPosition)
    (r : ExtractionResult) (h : hExtractByScan buf cursorPos = some r) :
    jsTrim r.command = r.command ∧ r.startLine ≤ cursorPos.y ∧
    r.endLine = cursorPos.y ∧ r.confidence = .medium := by
  unfold hExtractByScan at h
  dsimp only at h
  obtain ⟨h1, h2, h3, h4⟩ := hExtractRegion_some _ _ _ _ _ _ h
  refine ⟨h1, ?_, h3, h4⟩
  rw [h2]
  exact hScanLoop_le buf cursorPos.y _ cursorPos.y (Nat.le_refl _)

/-- Anatomy of a successful fall-through heuristic extraction. -/
theorem hExtractProceed_some (dead : Nat → Bool) (buf : Buffer) (cursorPos : CursorPosition)
    (currentPrompt : Option PromptRegion) (r : ExtractionResult)
    (h : hExtractProceed dead buf cursorPos currentPrompt = some r) :
    jsTrim r.command = r.command ∧ r.startLine ≤ cursorPos.y ∧
    r.endLine = cursorPos.y ∧ r.confidence = .medium := by
  unfold hExtractProceed at h
  cases currentPrompt with
  | none => exact hExtractByScan_some buf cursorPos r h
  | some p =>
    dsimp only at h
    by_cases hcond : (!dead p.marker.id && decide (p.marker.line ≤ cursorPos.y)) = true
    · rw [if_pos hcond] at h
      unfold hExtractFromPromptMarker at h
      obtain ⟨h1, h2, h3, h4⟩ := hExtractRegion_some _ _ _ _ _ _ h
      have hle : p.marker.line ≤ cursorPos.y := by
        have := (Bool.and_eq_true _ _).mp hcond
        exact of_decide_eq_true this.2
      exact ⟨h1, h2 ▸ hle, h3, h4⟩
    · rw [if_neg hcond] at h
      exact hExtractByScan_some buf cursorPos r h

/-- Anatomy of a successful heuristic extraction. -/
theorem hExtract_some (dead : Nat → Bool) (buf : Buffer) (cursorPos : CursorPosition)
    (currentPrompt : Option PromptRegion) (r : ExtractionResult)
    (h : hExtract dead buf cursorPos currentPrompt = some r) :
    jsTrim r.command = r.command ∧ r.startLine ≤ cursorPos.y ∧
    r.endLine = cursorPos.y ∧ r.confidence = .medium := by
  unfold hExtract at h
  by_cases hx : cursorPos.x = 0
  · rw [if_pos hx] at h
    cases hl : buf.lines cursorPos.y with
    | none => rw [hl] at h; exact Option.noConfusion h
    | some line =>
      rw [hl] at h
      dsimp only at h
      by_cases hb : jsTrim (translateToString line.text 0 none) = []
      · rw [if_pos hb] at h
        exact Option.noConfusion h
      · rw [if_neg hb] at h
        exact hExtractProceed_some dead buf cursorPos currentPrompt r h
  · rw [if_neg hx] at h
    exact hExtractProceed_some dead buf cursorPos currentPrompt r h

/-- Bridge between the JS `includes`-style `contains` and membership. -/
theorem contains_iff_mem (l : List Nat) (x : Nat) : l.contains x = true ↔ x ∈ l :=
  List.elem_iff

/-- The eviction loop drops exactly the overflow from the front of the
array (oldest first). -/
theorem evictOldest_fst : ∀ (fuel : Nat) (l : List PromptRegion) (d : List Nat),
    l.length - MAX_PROMPTS ≤ fuel →
    (evictOldest fuel l d).1 = l.drop (l.length - MAX_PROMPTS) := by
  intro fuel
  induction fuel with
  | zero =>
    intro l d h
    rw [Nat.le_zero.mp h]
    rfl
  | succ fuel ih =>
    intro l d h
    unfold evictOldest
    by_cases hlen : l.length > MAX_PROMPTS
    · rw [if_pos hlen]
      cases l with
      | nil => simp [MAX_PROMPTS] at hlen
      | cons old rest =>
        dsimp only
        rw [ih rest _ (by simp only [List.length_cons] at h ⊢; omega)]
        have he : (old :: rest).length - MAX_PROMPTS = (rest.length - MAX_PROMPTS) + 1 := by
          simp only [List.length_cons]
          simp only [List.length_cons] at hlen
          omega
        rw [he]
        rfl
    · rw [if_neg hlen]
      have he : l.length - MAX_PROMPTS = 0 := by omega
      rw [he]
      rfl

/-- Disposal only grows across the eviction loop. -/
theorem evictOldest_snd_mono : ∀ (fuel : Nat) (l : List PromptRegion) (d : List Nat) (x : Nat),
    d.contains x = true → ((evictOldest fuel l d).2).contains x = true := by
  intro fuel
  induction fuel with
  | zero => intro l d x hx; exact hx
  | succ fuel ih =>
    intro l d x hx
    unfold evictOldest
    by_cases hlen : l.length > MAX_PROMPTS
    · rw [if_pos hlen]
      cases l with
      | nil => exact hx
      | cons old rest =>
        dsimp only
        apply ih
        by_cases hc : d.contains old.marker.id = true
        · rw [if_pos hc]; exact hx
        · rw [if_neg hc]
          rw [contains_iff_mem] at hx ⊢
          exact List.mem_cons_of_mem _ hx
    · rw [if_neg hlen]; exact hx

/-- Everything the eviction loop disposes comes from the dropped
prefix. -/
theorem evictOldest_snd_sub : ∀ (fuel : Nat) (l : List PromptRegion) (d : List Nat) (x : Nat),
    ((evictOldest fuel l d).2).contains x = true →
    d.contains x = true ∨ x ∈ (l.take (l.length - MAX_PROMPTS)).map (·.marker.id) := by
  intro fuel
  induction fuel with
  | zero => intro l d x hx; exact Or.inl hx
  | succ fuel ih =>
    intro l d x hx
    unfold evictOldest at hx
    by_cases hlen : l.length > MAX_PROMPTS
    · rw [if_pos hlen] at hx
      cases l with
      | nil => exact Or.inl hx
      | cons old rest =>
        dsimp only at hx
        rcases ih rest _ x hx with hd | hm
        · by_cases hc : d.contains old.marker.id = true
          · rw [if_pos hc] at hd
            exact Or.inl hd
          · rw [if_neg hc] at hd
            rw [contains_iff_mem] at hd
            cases hd with
            | head =>
              refine Or.inr ?_
              have he : (old :: rest).length - MAX_PROMPTS = (rest.length - MAX_PROMPTS) + 1 := by
                simp only [List.length_cons]
                simp only [List.length_cons] at hlen
                omega
              rw [he, List.take_succ_cons, List.map_cons]
              exact List.mem_cons_self _ _
            | tail _ hmem => exact Or.inl ((contains_iff_mem d x).mpr hmem)
        · refine Or.inr ?_
          have he : (old :: rest).length - MAX_PROMPTS = (rest.length - MAX_PROMPTS) + 1 := by
            simp only [List.length_cons]
            simp only [List.length_cons] at hlen
            omega
          rw [he, List.take_succ_cons, List.map_cons]
          exact List.mem_cons_of_mem _ hm
    · rw [if_neg hlen] at hx
      exact Or.inl hx

/-- Every evicted entry ends up disposed. -/
theorem evictOldest_snd_taken : ∀ (fuel : Nat) (l : List PromptRegion) (d : List Nat),
    l.length - MAX_PROMPTS ≤ fuel →
    ∀ p ∈ l.take (l.length - MAX_PROMPTS), ((evictOldest fuel l d).2).contains p.marker.id = true := by
  intro fuel
  induction fuel with
  | zero =>
    intro l d h p hp
    rw [Nat.le_zero.mp h] at hp
    simp at hp
  | succ fuel ih =>
    intro l d h p hp
    unfold evictOldest
    by_cases hlen : l.length > MAX_PROMPTS
    · rw [if_pos hlen]
      cases l with
      | nil => simp [MAX_PROMPTS] at hlen
      | cons old rest =>
        dsimp only
        have he : (old :: rest).length - MAX_PROMPTS = (rest.length - MAX_PROMPTS) + 1 := by
          simp only [List.length_cons]
          simp only [List.length_cons] at hlen
          omega
        rw [he, List.take_succ_cons] at hp
        cases hp with
        | head =>
          apply evictOldest_snd_mono
          by_cases hc : d.contains p.marker.id = true
          · rw [if_pos hc]; exact hc
          · rw [if_neg hc]
            rw [contains_iff_mem]
            exact List.mem_cons_self _ _
        | tail _ hmem =>
          exact ih rest _ (by simp only [List.length_cons] at h ⊢; omega) p hmem
    · rw [if_neg hlen]
      have he : l.length - MAX_PROMPTS = 0 := by omega
      rw [he] at hp
      simp at hp

/-- Lemma: `updateFirst` preserves length. -/
theorem updateFirst_length {α : Type} (q : α → Bool) (f : α → α) :
    ∀ l : List α, (updateFirst q f l).length = l.length := by
  intro l
  induction l with
  | nil => rfl
  | cons a l ih =>
    unfold updateFirst
    by_cases hq : q a = true
    · rw [if_pos hq]
      simp
    · rw [if_neg hq]
      simp [ih]

/-- Lemma: `updateFirst` leaves any projection untouched by the update
unchanged. -/
theorem updateFirst_map {α β : Type} (q : α → Bool) (f : α → α) (g : α → β)
    (hg : ∀ a, g (f a) = g a) :
    ∀ l : List α, (updateFirst q f l).map g = l.map g := by
  intro l
  induction l with
  | nil => rfl
  | cons a l ih =>
    unfold updateFirst
    by_cases hq : q a = true
    · rw [if_pos hq]
      simp [hg a]
    · rw [if_neg hq]
      simp [ih]

/-- Lemma: `updateFirst` is a `set` at the first matching index. -/
theorem updateFirst_eq_set {α : Type} (q : α → Bool) (f : α → α) :
    ∀ (l : List α) (x : α), l[l.findIdx q]? = some x →
      updateFirst q f l = l.set (l.findIdx q) (f x) := by
  intro l
  induction l with
  | nil => intro x hx; simp at hx
  | cons a l ih =>
    intro x hx
    unfold updateFirst
    by_cases hq : q a = true
    · rw [if_pos hq]
      rw [List.findIdx_cons, hq, cond_true] at hx ⊢
      rw [List.getElem?_cons_zero] at hx
      rw [Option.some.inj hx]
      rfl
    · rw [if_neg hq]
      have hq' : (q a : Bool) = false := by
        cases hqa : q a
        · rfl
        · exact absurd hqa hq
      rw [List.findIdx_cons, hq', cond_false] at hx ⊢
      rw [List.getElem?_cons_succ] at hx
      rw [ih x hx]
      rfl

/-- Anatomy of a successful service extraction from validated
boundaries. -/
theorem svcExtractFromBoundaries_some (buf : Buffer) (b : CommandBoundaries)
    (r : SvcExtractionResult) (h : svcExtractFromBoundaries buf b = some r) :
    jsTrim r.command = r.command ∧ r.startLine = b.start.y ∧ r.endLine = b.endPos.y := by
  unfold svcExtractFromBoundaries at h
  dsimp only at h
  split at h
  · exact Option.noConfusion h
  · have hr := Option.some.inj h
    subst hr
    exact ⟨jsTrim_idem _, rfl, rfl⟩

/-- A service extraction with invalid expanded boundaries returns
`null`. -/
theorem svcExtractCommand_invalid (buf : Buffer) (originalPos : CursorPosition)
    (oracle : SvcProbeOracle) (b : CommandBoundaries)
    (hp : svcProbeCommandBoundaries oracle buf originalPos = some b)
    (hinv : ¬ lexLt (expandForMultiLine buf b).start (expandForMultiLine buf b).endPos) :
    svcExtractCommand false buf originalPos oracle = none := by
  unfold svcExtractCommand
  rw [if_neg Bool.false_ne_true, hp]
  dsimp only
  have hc : ¬¬((expandForMultiLine buf b).start.y > (expandForMultiLine buf b).endPos.y ∨
      ((expandForMultiLine buf b).start.y = (expandForMultiLine buf b).endPos.y ∧
        (expandForMultiLine buf b).start.x ≥ (expandForMultiLine buf b).endPos.x)) :=
    fun hnc => hinv ((svcValid_iff _).mp hnc)
  rw [if_pos (not_not.mp hc)]

/-- Anatomy of a successful orchestrated service extraction. -/
theorem svcExtractCommand_some (alt : Bool) (buf : Buffer) (originalPos : CursorPosition)
    (oracle : SvcProbeOracle) (r : SvcExtractionResult)
    (h : svcExtractCommand alt buf originalPos oracle = some r) :
    alt = false ∧ ∃ b, svcProbeCommandBoundaries oracle buf originalPos = some b ∧
      lexLt (expandForMultiLine buf b).start (expandForMultiLine buf b).endPos ∧
      svcExtractFromBoundaries buf (expandForMultiLine buf b) = some r := by
  unfold svcExtractCommand at h
  cases alt with
  | true => rw [if_pos rfl] at h; exact Option.noConfusion h
  | false =>
    rw [if_neg Bool.false_ne_true] at h
    cases hp : svcProbeCommandBoundaries oracle buf originalPos with
    | none => rw [hp] at h; exact Option.noConfusion h
    | some b =>
      rw [hp] at h
      dsimp only at h
      split at h
      · exact Option.noConfusion h
      · next hval => exact ⟨rfl, b, rfl, (svcValid_iff _).mp hval, h⟩

/-- A probe convergence point that is not strictly before the cursor is
rejected. -/
theorem cpExtract_invalid (buf : Buffer) (cursorPosition startPos : CursorPosition)
    (hinv : ¬ lexLt startPos cursorPosition) :
    cpExtract buf cursorPosition (some startPos) = none := by
  unfold cpExtract
  by_cases hx : cursorPosition.x = 0
  · rw [if_pos hx]
  · rw [if_neg hx]
    dsimp only
    rw [if_neg (fun hv => hinv ((cpIsValidBoundaries_iff _).mp hv))]

/-- A tracker result comes from the probe strategy or the heuristic
strategy. -/
theorem trackerExtractCommand_result (st : MarkerState) (alt : Bool) (buf : Buffer)
    (cursorPosition : CursorPosition) (probeStart : Option CursorPosition)
    (markerOk : Bool) (now : Nat) (r : ExtractionResult)
    (h : (trackerExtractCommand st alt buf cursorPosition probeStart markerOk now).result = some r) :
    cpExtract buf cursorPosition probeStart = some r ∨
    hExtract (st.disposed.contains ·) buf cursorPosition (getCurrentPrompt st) = some r := by
  unfold trackerExtractCommand at h
  by_cases ha : alt = true
  · rw [if_pos ha] at h
    exact Option.noConfusion h
  · rw [if_neg ha] at h
    dsimp only at h
    cases hc : cpExtract buf cursorPosition probeStart with
    | some res =>
      rw [hc] at h
      dsimp only at h
      exact Or.inl h
    | none =>
      rw [hc] at h
      dsimp only at h
      exact Or.inr h

/-! ## Claim theorems -/

/-- Claim C1: in full-screen (alternate-screen) mode both extraction
entry points return `null` immediately, whatever the buffer, cursor,
probe outcome and tracked markers, and the session state is untouched. -/
theorem C1_fullscreen_none (st : MarkerState) (buf : Buffer)
    (cursorPosition originalPos : CursorPosition) (oracle : SvcProbeOracle)
    (probeStart : Option CursorPosition) (markerOk : Bool) (now : Nat) :
    svcExtractCommand true buf originalPos oracle = none
    ∧ (trackerExtractCommand st true buf cursorPosition probeStart markerOk now).result = none
    ∧ (trackerExtractCommand st true buf cursorPosition probeStart markerOk now).state = st :=
  ⟨rfl, rfl, rfl⟩

/-- Claim C2: a boundary whose start is not lexicographically before its
end makes extraction return `null` (the embedding is total, so no error
is possible), and every returned result comes from a validated boundary
with start strictly before end. -/
theorem C2_boundary_validation :
    (∀ (buf : Buffer) (cursorPosition startPos : CursorPosition),
        ¬ lexLt startPos cursorPosition →
        cpExtract buf cursorPosition (some startPos) = none)
  ∧ (∀ (buf : Buffer) (cursorPosition : CursorPosition)
        (probeStart : Option CursorPosition) (r : ExtractionResult),
        cpExtract buf cursorPosition probeStart = some r →
        ∃ s, probeStart = some s ∧ lexLt s cursorPosition)
  ∧ (∀ (buf : Buffer) (originalPos : CursorPosition) (oracle : SvcProbeOracle)
        (b : CommandBoundaries),
        svcProbeCommandBoundaries oracle buf originalPos = some b →
        ¬ lexLt (expandForMultiLine buf b).start (expandForMultiLine buf b).endPos →
        svcExtractCommand false buf originalPos oracle = none)
  ∧ (∀ (alt : Bool) (buf : Buffer) (originalPos : CursorPosition)
        (oracle : SvcProbeOracle) (r : SvcExtractionResult),
        svcExtractCommand alt buf originalPos oracle = some r →
        ∃ b, svcProbeCommandBoundaries oracle buf originalPos = some b ∧
          lexLt (expandForMultiLine buf b).start (expandForMultiLine buf b).endPos) := by
  refine ⟨?_, ?_, ?_, ?_⟩
  · intro buf cursorPosition startPos hinv
    exact cpExtract_invalid buf cursorPosition startPos hinv
  · intro buf cursorPosition probeStart r h
    obtain ⟨s, hps, hlex, _, _⟩ := cpExtract_some buf cursorPosition probeStart r h
    exact ⟨s, hps, hlex⟩
  · intro buf originalPos oracle b hp hinv
    exact svcExtractCommand_invalid buf originalPos oracle b hp hinv
  · intro alt buf originalPos oracle r h
    obtain ⟨-, b, hp, hlex, -⟩ := svcExtractCommand_some alt buf originalPos oracle r h
    exact ⟨b, hp, hlex⟩

/-- Witness for C2 at a concrete inverted boundary and a concrete
successful extraction. -/
theorem C2_boundary_validation_witness :
    cpExtract emptyBuf ⟨2, 0⟩ (some ⟨5, 0⟩) = none
    ∧ ∃ s, (some (⟨2, 0⟩ : CursorPosition)) = some s ∧ lexLt s ⟨9, 0⟩ :=
  ⟨C2_boundary_validation.1 emptyBuf ⟨2, 0⟩ ⟨5, 0⟩ (by decide),
   C2_boundary_validation.2.1 exBufPlain ⟨9, 0⟩ (some ⟨2, 0⟩)
     ⟨str "echo hi", false, 0, 0, .high⟩ (by decide)⟩

/-- Claim C10: every result any extraction path returns carries an
already-trimmed command and a start line at or above its end line. -/
theorem C10_result_invariants :
    (∀ (buf : Buffer) (cursorPosition : CursorPosition)
        (probeStart : Option CursorPosition) (r : ExtractionResult),
        cpExtract buf cursorPosition probeStart = some r →
        jsTrim r.command = r.command ∧ r.startLine ≤ r.endLine)
  ∧ (∀ (dead : Nat → Bool) (buf : Buffer) (cursorPos : CursorPosition)
        (currentPrompt : Option PromptRegion) (r : ExtractionResult),
        hExtract dead buf cursorPos currentPrompt = some r →
        jsTrim r.command = r.command ∧ r.startLine ≤ r.endLine)
  ∧ (∀ (alt : Bool) (buf : Buffer) (originalPos : CursorPosition)
        (oracle : SvcProbeOracle) (r : SvcExtractionResult),
        svcExtractCommand alt buf originalPos oracle = some r →
        jsTrim r.command = r.command ∧ r.startLine ≤ r.endLine)
  ∧ (∀ (st : MarkerState) (alt : Bool) (buf : Buffer)
        (cursorPosition : CursorPosition) (probeStart : Option CursorPosition)
        (markerOk : Bool) (now : Nat) (r : ExtractionResult),
        (trackerExtractCommand st alt buf cursorPosition probeStart markerOk now).result = some r →
        jsTrim r.command = r.command ∧ r.startLine ≤ r.endLine) := by
  have hcp : ∀ (buf : Buffer) (cursorPosition : CursorPosition)
      (probeStart : Option CursorPosition) (r : ExtractionResult),
      cpExtract buf cursorPosition probeStart = some r →
      jsTrim r.command = r.command ∧ r.startLine ≤ r.endLine := by
    intro buf cursorPosition probeStart r h
    obtain ⟨s, hps, hlex, hr, hx⟩ := cpExtract_some buf cursorPosition probeStart r h
    subst hr
    constructor
    · simp only [cpExtractFromBoundaries]
      exact jsTrim_idem _
    · simp only [cpExtractFromBoundaries]
      unfold lexLt at hlex
      rcases hlex with hlt | ⟨heq, _⟩
      · exact Nat.le_of_lt hlt
      · exact Nat.le_of_eq heq
  have hh : ∀ (dead : Nat → Bool) (buf : Buffer) (cursorPos : CursorPosition)
      (currentPrompt : Option PromptRegion) (r : ExtractionResult),
      hExtract dead buf cursorPos currentPrompt = some r →
      jsTrim r.command = r.command ∧ r.startLine ≤ r.endLine := by
    intro dead buf cursorPos currentPrompt r h
    obtain ⟨h1, h2, h3, _⟩ := hExtract_some dead buf cursorPos currentPrompt r h
    exact ⟨h1, h3 ▸ h2⟩
  refine ⟨hcp, hh, ?_, ?_⟩
  · intro alt buf originalPos oracle r h
    obtain ⟨-, b, -, hlex, hex⟩ := svcExtractCommand_some alt buf originalPos oracle r h
    obtain ⟨h1, h2, h3⟩ := svcExtractFromBoundaries_some _ _ _ hex
    refine ⟨h1, ?_⟩
    rw [h2, h3]
    unfold lexLt at hlex
    rcases hlex with hlt | ⟨heq, _⟩
    · exact Nat.le_of_lt hlt
    · exact Nat.le_of_eq heq
  · intro st alt buf cursorPosition probeStart markerOk now r h
    rcases trackerExtractCommand_result st alt buf cursorPosition probeStart markerOk now r h with hc | hhe
    · exact hcp buf cursorPosition probeStart r hc
    · exact hh _ buf cursorPosition _ r hhe

/-- Witness for C10 on a concrete heuristic extraction. -/
theorem C10_result_invariants_witness :
    jsTrim (str "echo hi") = str "echo hi" ∧ (0 : Nat) ≤ 0 :=
  C10_result_invariants.2.1 (fun _ => false) exBufPlain ⟨9, 0⟩ none
    ⟨str "echo hi", false, 0, 0, .medium⟩ (by decide)

/-- Claim C4: the boundary expander walks back exactly over the maximal
run of immediately preceding backslash-continued rows, bounded by the
lookback cap; on the topmost continuation row the start column is the
catalogue's prompt end (or 0 without a prompt); the end position is
untouched. -/
theorem C4_expand_walks_continuations (buf : Buffer) (b : CommandBoundaries) :
    (expandForMultiLine buf b).endPos = b.endPos
    ∧ contRun buf b.start.y ≤ MAX_SCAN_LINES
    ∧ (∀ j, j < contRun buf b.start.y → hasContMarker buf (b.start.y - 1 - j) = true)
    ∧ (contRun buf b.start.y < min MAX_SCAN_LINES b.start.y →
        hasContMarker buf (b.start.y - 1 - contRun buf b.start.y) = false)
    ∧ (contRun buf b.start.y = 0 → (expandForMultiLine buf b).start = b.start)
    ∧ (∀ k, contRun buf b.start.y = k + 1 →
        (expandForMultiLine buf b).start =
          ⟨(svcFindPromptEnd (getLineText buf (b.start.y - 1 - k))).getD 0,
            b.start.y - 1 - k⟩) := by
  refine ⟨rfl, ?_, ?_, ?_, ?_, ?_⟩
  · exact Nat.le_trans (contRunAux_le buf _ _) (Nat.min_le_left _ _)
  · intro j hj
    exact contRunAux_marker buf _ _ j hj
  · intro hlt
    exact contRunAux_stop buf _ _ hlt
  · intro h0
    unfold expandForMultiLine
    dsimp only
    rw [expandLoop_eq]
    unfold contRun at h0
    rw [h0]
  · intro k hk
    unfold expandForMultiLine
    dsimp only
    rw [expandLoop_eq]
    unfold contRun at hk
    rw [hk]

/-- Witness for C4: the two-row backslash continuation fixture. -/
theorem C4_expand_walks_continuations_witness :
    (expandForMultiLine exBufCont ⟨⟨2, 1⟩, ⟨7, 1⟩⟩).start
      = ⟨(svcFindPromptEnd (getLineText exBufCont 0)).getD 0, 0⟩
    ∧ (expandForMultiLine exBufCont ⟨⟨2, 1⟩, ⟨7, 1⟩⟩).endPos = ⟨7, 1⟩ :=
  ⟨(C4_expand_walks_continuations exBufCont ⟨⟨2, 1⟩, ⟨7, 1⟩⟩).2.2.2.2.2 0 (by decide),
   (C4_expand_walks_continuations exBufCont ⟨⟨2, 1⟩, ⟨7, 1⟩⟩).1⟩

/-- Claim C3 (amended): in the two strategy assemblers a wrapped row is
concatenated with no separator, a non-wrapped row joins after exactly
one newline with its continuation prompt stripped, and the multi-line
flag is set exactly when some existing non-wrapped row follows the
first; the service-side `extractFromBoundaries` does not follow this
rule (see the counterexample). -/
theorem C3_strategy_join_rule (buf : Buffer) (startY startX endY endX : Nat)
    (h : startY ≤ endY) :
    assembleRegion buf startY startX endY endX
      = (firstRowText buf startY startX endY endX
           ++ ((List.range' (startY + 1) (endY - startY)).map (segPiece buf endY endX)).flatten,
         (List.range' (startY + 1) (endY - startY)).any (rowNonWrapped buf))
    ∧ cpExtractFromBoundaries buf ⟨⟨startX, startY⟩, ⟨endX, endY⟩⟩
      = ⟨jsTrim (firstRowText buf startY startX endY endX
           ++ ((List.range' (startY + 1) (endY - startY)).map (segPiece buf endY endX)).flatten),
         (List.range' (startY + 1) (endY - startY)).any (rowNonWrapped buf),
         startY, endY, .high⟩
    ∧ hExtractRegion buf startY startX endY endX
      = (if jsTrim (firstRowText buf startY startX endY endX
            ++ ((List.range' (startY + 1) (endY - startY)).map (segPiece buf endY endX)).flatten) = []
         then none
         else some ⟨jsTrim (firstRowText buf startY startX endY endX
            ++ ((List.range' (startY + 1) (endY - startY)).map (segPiece buf endY endX)).flatten),
            (List.range' (startY + 1) (endY - startY)).any (rowNonWrapped buf),
            startY, endY, .medium⟩) := by
  have hstep : assembleStep buf startY startX endY endX ([], false) startY
      = (firstRowText buf startY startX endY endX, false) := by
    unfold assembleStep firstRowText
    cases buf.lines startY with
    | none => rfl
    | some line =>
      dsimp only
      rw [if_pos rfl, if_neg (Nat.lt_irrefl startY)]
      simp
  have hmem : ∀ y ∈ List.range' (startY + 1) (endY - startY), startY < y := by
    intro y hy
    obtain ⟨i, hi, rfl⟩ := List.mem_range'.mp hy
    omega
  have hmain : assembleRegion buf startY startX endY endX
      = (firstRowText buf startY startX endY endX
           ++ ((List.range' (startY + 1) (endY - startY)).map (segPiece buf endY endX)).flatten,
         (List.range' (startY + 1) (endY - startY)).any (rowNonWrapped buf)) := by
    unfold assembleRegion
    have hsplit : endY + 1 - startY = (endY - startY) + 1 := by omega
    rw [hsplit, List.range'_succ]
    rw [List.foldl_cons, hstep,
        assembleRegion_foldl_after buf startY startX endY endX _ hmem _]
    simp
  refine ⟨hmain, ?_, ?_⟩
  · unfold cpExtractFromBoundaries
    dsimp only
    rw [hmain]
  · unfold hExtractRegion
    dsimp only
    rw [hmain]

/-- Witness for C3 (amended) on the continuation fixture. -/
theorem C3_strategy_join_rule_witness :
    assembleRegion exBufCont 0 2 1 7
      = (firstRowText exBufCont 0 2 1 7
           ++ ((List.range' 1 1).map (segPiece exBufCont 1 7)).flatten,
         (List.range' 1 1).any (rowNonWrapped exBufCont)) :=
  (C3_strategy_join_rule exBufCont 0 2 1 7 (by decide)).1

/-- Counterexample for C3 as stated: the service assembler inserts a
newline before a row flagged wrapped and reports it as multi-line. -/
theorem C3_join_rule_counterexample :
    (exBufWrapJoin.lines 1).map (·.isWrapped) = some true
    ∧ svcExtractFromBoundaries exBufWrapJoin ⟨⟨0, 0⟩, ⟨3, 1⟩⟩
        = some ⟨str "abc\ndef", true, 0, 1⟩
    ∧ cpExtractFromBoundaries exBufWrapJoin ⟨⟨0, 0⟩, ⟨3, 1⟩⟩
        = ⟨str "abcdef", false, 0, 1, .high⟩ := by decide

/-- On the alternate screen the tracker is the identity with no
result. -/
theorem tracker_alt_eq (st : MarkerState) (buf : Buffer) (c : CursorPosition)
    (ps : Option CursorPosition) (mk : Bool) (now : Nat) :
    trackerExtractCommand st true buf c ps mk now = ⟨none, st⟩ := rfl

/-- A successful probe determines the tracker result. -/
theorem tracker_probe_some (st : MarkerState) (buf : Buffer) (c : CursorPosition)
    (ps : Option CursorPosition) (mk : Bool) (now : Nat) (res : ExtractionResult)
    (hc : cpExtract buf c ps = some res) :
    (trackerExtractCommand st false buf c ps mk now).result = some res := by
  unfold trackerExtractCommand
  rw [if_neg Bool.false_ne_true]
  dsimp only
  rw [hc]

/-- A failed probe leaves the state untouched and delegates to the
heuristic. -/
theorem tracker_probe_none (st : MarkerState) (buf : Buffer) (c : CursorPosition)
    (ps : Option CursorPosition) (mk : Bool) (now : Nat)
    (hc : cpExtract buf c ps = none) :
    trackerExtractCommand st false buf c ps mk now
      = ⟨hExtract (st.disposed.contains ·) buf c (getCurrentPrompt st), st⟩ := by
  unfold trackerExtractCommand
  rw [if_neg Bool.false_ne_true]
  dsimp only
  rw [hc]

/-- Claim C6 (amended): the heuristic strategy performs no forward end
scan; the end row of every result it returns is the cursor row itself. -/
theorem C6_end_is_cursor_row (dead : Nat → Bool) (buf : Buffer)
    (cursorPos : CursorPosition) (currentPrompt : Option PromptRegion)
    (r : ExtractionResult) (h : hExtract dead buf cursorPos currentPrompt = some r) :
    r.endLine = cursorPos.y :=
  (hExtract_some dead buf cursorPos currentPrompt r h).2.2.1

/-- Witness for C6 (amended) on the prompt/output fixture. -/
theorem C6_end_is_cursor_row_witness :
    (⟨str "echo hi", false, 0, 0, Confidence.medium⟩ : ExtractionResult).endLine
      = (⟨9, 0⟩ : CursorPosition).y :=
  C6_end_is_cursor_row (fun _ => false) exBufPlain ⟨9, 0⟩ none
    ⟨str "echo hi", false, 0, 0, .medium⟩ (by decide)

/-- Counterexample for C6 as stated: on `["$ echo hi", "total 42"]` with
the cursor at the end of row 0, row 1 is non-empty and not a fresh
prompt, so the spec's forward scan would end the region at row 1, but
the heuristic result ends at the cursor row 0. -/
theorem C6_forward_scan_counterexample :
    jsTrim (getLineText exBufPlain 1) ≠ []
    ∧ hFindPromptEnd (getLineText exBufPlain 1) = none
    ∧ specForwardScanEnd exBufPlain 0 = 1
    ∧ (hExtract (fun _ => false) exBufPlain ⟨9, 0⟩ none).map (·.endLine) = some 0 := by
  decide

/-- Claim C7 (amended): with the cursor at column 0, no live marker and
a missing or blank cursor row, extraction returns `null`. -/
theorem C7_column0_blank_none (st : MarkerState) (buf : Buffer)
    (cursorPos : CursorPosition) (probeStart : Option CursorPosition)
    (markerOk : Bool) (now : Nat)
    (hx : cursorPos.x = 0)
    (_hm : getCurrentPrompt st = none)
    (hblank : ∀ line, buf.lines cursorPos.y = some line →
        jsTrim (translateToString line.text 0 none) = []) :
    (trackerExtractCommand st false buf cursorPos probeStart markerOk now).result = none := by
  have hcp : cpExtract buf cursorPos probeStart = none := by
    unfold cpExtract
    rw [if_pos hx]
  rw [tracker_probe_none st buf cursorPos probeStart markerOk now hcp]
  dsimp only
  unfold hExtract
  rw [if_pos hx]
  cases hl : buf.lines cursorPos.y with
  | none => rfl
  | some line =>
    dsimp only
    rw [if_pos (hblank line hl)]

/-- Witness for C7 (amended): empty buffer, cursor at column 0. -/
theorem C7_column0_blank_none_witness :
    (trackerExtractCommand emptyMarkerState false emptyBuf ⟨0, 5⟩ none true 0).result = none :=
  C7_column0_blank_none emptyMarkerState emptyBuf ⟨0, 5⟩ none true 0 rfl rfl
    (fun _ h => Option.noConfusion h)

/-- Counterexample for C7 as stated: cursor at column 0 of a wrapped
row, no live marker, yet the tracker still extracts a command from the
rows above. -/
theorem C7_column0_counterexample :
    (⟨0, 1⟩ : CursorPosition).x = 0
    ∧ getCurrentPrompt emptyMarkerState = none
    ∧ ((trackerExtractCommand emptyMarkerState false exBufWrapped ⟨0, 1⟩ none true 0).result).map
        (·.command) = some (str "echo hi") := by
  decide

/-- Claim C8 (amended): two immediate successive extraction calls on the
same buffer with the same probe outcome return identical results, and
when the probe fails the call leaves the session state untouched; a
successful probe, however, records a prompt marker (see the
counterexample). -/
theorem C8_repeat_extract_stable (st : MarkerState) (alt : Bool) (buf : Buffer)
    (cursorPosition : CursorPosition) (probeStart : Option CursorPosition)
    (markerOk : Bool) (n1 n2 : Nat) :
    (trackerExtractCommand
        (trackerExtractCommand st alt buf cursorPosition probeStart markerOk n1).state
        alt buf cursorPosition probeStart markerOk n2).result
      = (trackerExtractCommand st alt buf cursorPosition probeStart markerOk n1).result
    ∧ (cpExtract buf cursorPosition probeStart = none →
        (trackerExtractCommand st alt buf cursorPosition probeStart markerOk n1).state = st) := by
  cases alt with
  | true =>
    rw [tracker_alt_eq]
    dsimp only
    rw [tracker_alt_eq]
    exact ⟨rfl, fun _ => rfl⟩
  | false =>
    cases hc : cpExtract buf cursorPosition probeStart with
    | some res =>
      constructor
      · rw [tracker_probe_some _ buf cursorPosition probeStart markerOk n1 res hc,
            tracker_probe_some _ buf cursorPosition probeStart markerOk n2 res hc]
      · intro hnone
        exact Option.noConfusion hnone
    | none =>
      rw [tracker_probe_none st buf cursorPosition probeStart markerOk n1 hc]
      dsimp only
      rw [tracker_probe_none st buf cursorPosition probeStart markerOk n2 hc]
      exact ⟨rfl, fun _ => rfl⟩

/-- Witness for C8 (amended) at a concrete failing probe. -/
theorem C8_repeat_extract_stable_witness :
    (trackerExtractCommand
        (trackerExtractCommand emptyMarkerState false emptyBuf ⟨0, 0⟩ none true 1).state
        false emptyBuf ⟨0, 0⟩ none true 2).result
      = (trackerExtractCommand emptyMarkerState false emptyBuf ⟨0, 0⟩ none true 1).result
    ∧ (trackerExtractCommand emptyMarkerState false emptyBuf ⟨0, 0⟩ none true 1).state
      = emptyMarkerState :=
  ⟨(C8_repeat_extract_stable emptyMarkerState false emptyBuf ⟨0, 0⟩ none true 1 2).1,
   (C8_repeat_extract_stable emptyMarkerState false emptyBuf ⟨0, 0⟩ none true 1 2).2 (by decide)⟩

/-- Counterexample for C8 as stated: a successful probe mutates the
session state, growing the marker set from zero to one entry. -/
theorem C8_hidden_mutation_counterexample :
    emptyMarkerState.prompts.length = 0
    ∧ ((trackerExtractCommand emptyMarkerState false exBufPlain ⟨9, 0⟩ (some ⟨2, 0⟩) true 5).result).isSome
        = true
    ∧ ((trackerExtractCommand emptyMarkerState false exBufPlain ⟨9, 0⟩ (some ⟨2, 0⟩) true 5).state).prompts.length
        = 1 := by
  decide

/-- Lemma: `find?` returns the element at `findIdx`. -/
theorem find?_eq_getElem?_findIdx {α : Type} (q : α → Bool) :
    ∀ l : List α, l.find? q = l[l.findIdx q]? := by
  intro l
  induction l with
  | nil => rfl
  | cons a l ih =>
    by_cases hq : q a = true
    · rw [List.findIdx_cons, hq, cond_true, List.find?_cons_of_pos _ hq,
          List.getElem?_cons_zero]
    · have hq' : q a = false := by
        cases hqa : q a
        · rfl
        · exact absurd hqa hq
      rw [List.findIdx_cons, hq', cond_false, List.getElem?_cons_succ,
          List.find?_cons_of_neg _ hq, ih]

/-- Dropping within the first list of an append. -/
theorem drop_append_le {α : Type} (l₁ l₂ : List α) (n : Nat) (h : n ≤ l₁.length) :
    (l₁ ++ l₂).drop n = l₁.drop n ++ l₂ := by
  rw [List.drop_append_eq_append_drop, Nat.sub_eq_zero_of_le h]
  rfl

/-- Taking within the first list of an append. -/
theorem take_append_le {α : Type} (l₁ l₂ : List α) (n : Nat) (h : n ≤ l₁.length) :
    (l₁ ++ l₂).take n = l₁.take n := by
  rw [List.take_append_eq_append_take, Nat.sub_eq_zero_of_le h]
  simp

/-- Lemma: `addPrompt` on a row with a live duplicate: update in place and
dispose the fresh marker. -/
theorem addPrompt_dup_eq (st : MarkerState) (region : PromptRegion) (p₀ : PromptRegion)
    (hfind : st.prompts.find? (regionDup st region.marker.line) = some p₀) :
    addPrompt st region
      = { st with
          prompts := updateFirst (regionDup st region.marker.line)
            (fun p => { p with commandStartX := region.commandStartX,
                               timestamp := region.timestamp }) st.prompts,
          disposed := region.marker.id :: st.disposed } := by
  unfold addPrompt
  rw [hfind]

/-- Lemma: `addPrompt` on a fresh row: push, evict the overflow, repoint. -/
theorem addPrompt_fresh_eq (st : MarkerState) (region : PromptRegion)
    (hfind : st.prompts.find? (regionDup st region.marker.line) = none) :
    addPrompt st region
      = { st with
          prompts := (evictOldest (st.prompts ++ [region]).length
            (st.prompts ++ [region]) st.disposed).1,
          disposed := (evictOldest (st.prompts ++ [region]).length
            (st.prompts ++ [region]) st.disposed).2,
          currentPrompt := some region } := by
  unfold addPrompt
  rw [hfind]

/-- One insertion keeps the set within capacity. -/
theorem addPrompt_length_le (st : MarkerState) (region : PromptRegion)
    (hcap : st.prompts.length ≤ MAX_PROMPTS) :
    (addPrompt st region).prompts.length ≤ MAX_PROMPTS := by
  cases hfind : st.prompts.find? (regionDup st region.marker.line) with
  | some p₀ =>
    rw [addPrompt_dup_eq st region p₀ hfind]
    dsimp only
    rw [updateFirst_length]
    exact hcap
  | none =>
    rw [addPrompt_fresh_eq st region hfind]
    dsimp only
    rw [evictOldest_fst _ _ _ (Nat.sub_le _ _), List.length_drop]
    omega

/-- Any sequence of insertions keeps the set within capacity. -/
theorem addPrompt_foldl_length_le (regions : List PromptRegion) :
    ∀ st : MarkerState, st.prompts.length ≤ MAX_PROMPTS →
      (regions.foldl addPrompt st).prompts.length ≤ MAX_PROMPTS := by
  induction regions with
  | nil => intro st h; exact h
  | cons r rs ih =>
    intro st h
    rw [List.foldl_cons]
    exact ih (addPrompt st r) (addPrompt_length_le st r h)

/-- Claim C5: inserting at an occupied live row updates that entry in
place (new column and timestamp) and disposes the new handle; a fresh
row is appended with the overflow evicted oldest-first and every evicted
marker disposed; the set never exceeds its capacity, over any insertion
sequence. -/
theorem C5_addPrompt_dedup_capacity (st : MarkerState) (region : PromptRegion)
    (hcap : st.prompts.length ≤ MAX_PROMPTS) :
    (addPrompt st region).prompts.length ≤ MAX_PROMPTS
    ∧ (∀ p₀, st.prompts.find? (regionDup st region.marker.line) = some p₀ →
        (addPrompt st region).prompts
          = st.prompts.set (st.prompts.findIdx (regionDup st region.marker.line))
              { p₀ with commandStartX := region.commandStartX,
                        timestamp := region.timestamp }
        ∧ (addPrompt st region).prompts.length = st.prompts.length
        ∧ (addPrompt st region).disposed.contains region.marker.id = true
        ∧ (addPrompt st region).currentPrompt = st.currentPrompt)
    ∧ (st.prompts.find? (regionDup st region.marker.line) = none →
        (addPrompt st region).prompts
          = (st.prompts ++ [region]).drop ((st.prompts ++ [region]).length - MAX_PROMPTS)
        ∧ (∀ p ∈ (st.prompts ++ [region]).take ((st.prompts ++ [region]).length - MAX_PROMPTS),
            (addPrompt st region).disposed.contains p.marker.id = true)
        ∧ (addPrompt st region).currentPrompt = some region)
    ∧ (∀ regions : List PromptRegion,
        (regions.foldl addPrompt st).prompts.length ≤ MAX_PROMPTS) := by
  refine ⟨addPrompt_length_le st region hcap, ?_, ?_,
    fun regions => addPrompt_foldl_length_le regions st hcap⟩
  · intro p₀ hfind
    rw [addPrompt_dup_eq st region p₀ hfind]
    dsimp only
    refine ⟨?_, updateFirst_length _ _ _, ?_, rfl⟩
    · apply updateFirst_eq_set
      rw [← find?_eq_getElem?_findIdx]
      exact hfind
    · rw [List.contains_cons]
      simp
  · intro hfind
    rw [addPrompt_fresh_eq st region hfind]
    dsimp only
    refine ⟨evictOldest_fst _ _ _ (Nat.sub_le _ _), ?_, rfl⟩
    intro p hp
    exact evictOldest_snd_taken _ _ _ (Nat.sub_le _ _) p hp

/-- Witness for C5: first insertion into a fresh session. -/
theorem C5_addPrompt_dedup_capacity_witness :
    (addPrompt emptyMarkerState exRegionA).prompts.length ≤ MAX_PROMPTS
    ∧ (addPrompt emptyMarkerState exRegionA).currentPrompt = some exRegionA :=
  ⟨(C5_addPrompt_dedup_capacity emptyMarkerState exRegionA (by decide)).1,
   ((C5_addPrompt_dedup_capacity emptyMarkerState exRegionA (by decide)).2.2.1 (by decide)).2.2⟩

/-- Claim C9 (amended): across insertions, duplicate updates, external
disposal and cleanup, the most-recent pointer always references an entry
of the marker set or is absent (and is hidden once disposed); after a
fresh insertion it references the newly marked entry.  It is not always
the most recently marked member (see the counterexample). -/
theorem C9_current_pointer (st : MarkerState) (r : PromptRegion) (id : Nat)
    (c : PromptRegion) :
    (currentInSet st → currentInSet (addPrompt st r))
    ∧ (currentInSet st → currentInSet (cleanupDisposedMarkers st))
    ∧ (currentInSet st → currentInSet (disposeMarker st id))
    ∧ (currentInSet st → getCurrentPrompt st = some c →
        c.marker.id ∈ st.prompts.map (·.marker.id) ∧
        st.disposed.contains c.marker.id = false)
    ∧ (st.prompts.find? (regionDup st r.marker.line) = none →
        st.disposed.contains r.marker.id = false →
        r.marker.id ∉ st.prompts.map (·.marker.id) →
        getCurrentPrompt (addPrompt st r) = some r) := by
  refine ⟨?_, ?_, ?_, ?_, ?_⟩
  · intro hinv
    cases hfind : st.prompts.find? (regionDup st r.marker.line) with
    | some p₀ =>
      rw [addPrompt_dup_eq st r p₀ hfind]
      intro c' hc'
      dsimp only at hc' ⊢
      rcases hinv c' hc' with hmem | hdisp
      · left
        rw [updateFirst_map (regionDup st r.marker.line)
          (fun p => { p with commandStartX := r.commandStartX, timestamp := r.timestamp })
          (·.marker.id) (fun a => rfl) st.prompts]
        exact hmem
      · right
        rw [contains_iff_mem]
        exact List.mem_cons_of_mem _ ((contains_iff_mem _ _).mp hdisp)
    | none =>
      rw [addPrompt_fresh_eq st r hfind]
      intro c' hc'
      dsimp only at hc' ⊢
      have hcr := Option.some.inj hc'
      subst hcr
      left
      rw [evictOldest_fst _ _ _ (Nat.sub_le _ _)]
      have hk : (st.prompts ++ [r]).length - MAX_PROMPTS ≤ st.prompts.length := by
        simp only [List.length_append, List.length_cons, List.length_nil, MAX_PROMPTS]
        omega
      rw [drop_append_le _ _ _ hk, List.map_append]
      exact List.mem_append_right _ (by simp)
  · intro hinv c' hc'
    unfold cleanupDisposedMarkers at hc' ⊢
    dsimp only at hc' ⊢
    cases hcur : st.currentPrompt with
    | none => rw [hcur] at hc'; exact Option.noConfusion hc'
    | some c₀ =>
      rw [hcur] at hc'
      dsimp only at hc'
      by_cases hd : st.disposed.contains c₀.marker.id = true
      · rw [if_pos hd] at hc'
        left
        exact List.mem_map_of_mem _ (List.mem_of_getLast?_eq_some hc')
      · rw [if_neg hd] at hc'
        have hcc := Option.some.inj hc'
        rw [hcc] at hcur hd
        rcases hinv c' hcur with hmem | hdisp
        · left
          obtain ⟨p, hp, hpid⟩ := List.mem_map.mp hmem
          rw [← hpid]
          refine List.mem_map_of_mem _ (List.mem_filter.mpr ⟨hp, ?_⟩)
          rw [hpid]
          cases hdb : st.disposed.contains c'.marker.id
          · rfl
          · exact absurd hdb hd
        · exact absurd hdisp hd
  · intro hinv c' hc'
    unfold disposeMarker at hc' ⊢
    dsimp only at hc' ⊢
    rcases hinv c' hc' with hmem | hdisp
    · exact Or.inl hmem
    · right
      by_cases hd : st.disposed.contains id = true
      · rw [if_pos hd]
        exact hdisp
      · rw [if_neg hd, contains_iff_mem]
        exact List.mem_cons_of_mem _ ((contains_iff_mem _ _).mp hdisp)
  · intro hinv hcur
    unfold getCurrentPrompt at hcur
    cases hc0 : st.currentPrompt with
    | none => rw [hc0] at hcur; exact Option.noConfusion hcur
    | some c₀ =>
      rw [hc0] at hcur
      dsimp only at hcur
      by_cases hd : st.disposed.contains c₀.marker.id = true
      · rw [if_pos hd] at hcur
        exact Option.noConfusion hcur
      · rw [if_neg hd] at hcur
        have hcc := Option.some.inj hcur
        rw [hcc] at hc0 hd
        rcases hinv c hc0 with hmem | hdisp
        · refine ⟨hmem, ?_⟩
          cases hdb : st.disposed.contains c.marker.id
          · rfl
          · exact absurd hdb hd
        · exact absurd hdisp hd
  · intro hfind hdfalse hnotin
    rw [addPrompt_fresh_eq st r hfind]
    unfold getCurrentPrompt
    dsimp only
    have hnd : ((evictOldest (st.prompts ++ [r]).length (st.prompts ++ [r]) st.disposed).2).contains
        r.marker.id = false := by
      cases hcb : ((evictOldest (st.prompts ++ [r]).length (st.prompts ++ [r]) st.disposed).2).contains
          r.marker.id
      · rfl
      · exfalso
        rcases evictOldest_snd_sub _ _ _ _ hcb with hd | hm
        · rw [hdfalse] at hd
          exact Bool.noConfusion hd
        · have hk : (st.prompts ++ [r]).length - MAX_PROMPTS ≤ st.prompts.length := by
            simp only [List.length_append, List.length_cons, List.length_nil, MAX_PROMPTS]
            omega
          rw [take_append_le _ _ _ hk] at hm
          obtain ⟨p, hp, hpid⟩ := List.mem_map.mp hm
          exact hnotin (List.mem_map.mpr ⟨p, List.mem_of_mem_take hp, hpid⟩)
    rw [if_neg (by rw [hnd]; exact Bool.false_ne_true)]

/-- Witness for C9 (amended): the pointer lands on the first inserted
region. -/
theorem C9_current_pointer_witness :
    getCurrentPrompt (addPrompt emptyMarkerState exRegionA) = some exRegionA :=
  (C9_current_pointer emptyMarkerState exRegionA 0 exRegionA).2.2.2.2
    (by decide) (by decide) (by decide)

/-- Counterexample for C9 as stated: after marking rows 3, 5 and 3
again, the duplicate update stamps the row-3 entry with the newest
timestamp (3) but the pointer still references the row-5 entry
(timestamp 2), which is live and in the set but not the most recently
marked member. -/
theorem C9_most_recent_counterexample :
    getCurrentPrompt exMarkerSt = some exRegionB
    ∧ exMarkerSt.prompts.map (·.timestamp) = [3, 2]
    ∧ exRegionB.timestamp = 2 := by decide
